import Mathlib

/-!
Verification development for the torsh repository: a shallow embedding of the
supervision / reconciliation core (client percent derivation, daemon port
selection and settings write, RPC retry loop, refresh-cycle state machines,
config normalization round-trip), with theorems settling the stated properties.

Floats in the source are modelled as rationals; Python `or` on values is
modelled through explicit truthiness on `Option`; dictionaries and sets are
modelled as association lists / membership lists with the same observable
behaviour (lookup with later-entry-wins for dict comprehensions, point update,
default-0 counters).
-/

namespace Torsh

/-! ### Client: `TransmissionController._map_torrent` percent derivation

Source: src/torsh/client.py, `_map_torrent` lines 216-283 and `_as_float`.
Raw daemon attributes are modelled as `Option ℚ` (`none` = attribute absent or
`None`); Python `a or b` on two raw numeric attributes keeps `a` only when it
is truthy (non-zero). -/

/-- Python `a or b` on optional numbers: keeps `a` when present and non-zero. -/
def truthyOr (a b : Option ℚ) : Option ℚ :=
  match a with
  | some x => if x ≠ 0 then some x else b
  | none => b

/-- The raw daemon fields `_map_torrent` consults for the percentage. -/
structure RawTorrent where
  percentDone : Option ℚ
  progress : Option ℚ
  sizeWhenDone : Option ℚ
  size_when_done : Option ℚ
  leftUntilDone : Option ℚ
  left_until_done : Option ℚ

/-- `raw_percent = _as_float(t.percentDone)`, falling back to
`_as_float(t.progress) or 0.0`. -/
def rawPercent (t : RawTorrent) : ℚ :=
  match t.percentDone with
  | some x => x
  | none => t.progress.getD 0

/-- The fallback branch of the derivation: scale by 100 only when the reported
fraction is at most 1. -/
def fallbackPercent (t : RawTorrent) : ℚ :=
  if rawPercent t ≤ 1 then rawPercent t * 100 else rawPercent t

/-- `percent_done` exactly as `_map_torrent` computes it. -/
def mapPercentDone (t : RawTorrent) : ℚ :=
  match truthyOr t.sizeWhenDone t.size_when_done,
        truthyOr t.leftUntilDone t.left_until_done with
  | some s, some l =>
      if 0 < s then max 0 (min 100 ((s - l) / s * 100)) else fallbackPercent t
  | some _, none => fallbackPercent t
  | none, _ => fallbackPercent t

/-! ### Daemon: `_write_settings_ports` (src/torsh/daemon.py lines 108-123)

The settings document is an association list of keys to JSON scalars; Python
dict assignment is point update preserving every other binding. -/

/-- The JSON scalar values the settings model needs. -/
inductive JVal where
  | num (n : Int)
  | bool (b : Bool)
  | str (s : String)
deriving DecidableEq

/-- Dict assignment `d[k] = v`: replace the binding of `k`, else append. -/
def setKey : List (String × JVal) → String → JVal → List (String × JVal)
  | [], k, v => [(k, v)]
  | (k', v') :: rest, k, v =>
      if k' = k then (k, v) :: rest else (k', v') :: setKey rest k v

/-- Dict lookup. -/
def lookupKey (d : List (String × JVal)) (k : String) : Option JVal :=
  (d.find? (fun p => p.1 = k)).map Prod.snd

/-- `_write_settings_ports`: starting from the existing document `data`, set
`rpc-port`; when `peer_port` is truthy also set `peer-port` and
`peer-port-random-on-start = false`. -/
def writeSettingsPorts (data : List (String × JVal)) (rpcPort : Int)
    (peerPort : Option Int) : List (String × JVal) :=
  let d1 := setKey data "rpc-port" (.num rpcPort)
  match peerPort with
  | some p =>
      if p ≠ 0 then
        setKey (setKey d1 "peer-port" (.num p)) "peer-port-random-on-start" (.bool false)
      else d1
  | none => d1

/-! ### Daemon: `_pick_free_port` (src/torsh/daemon.py lines 95-105)

`free p` models a successful bind test on port `p`. -/

/-- The probe loop body: try `n` consecutive ports starting at `p`. -/
def probePort (free : Int → Bool) : Nat → Int → Option Int
  | 0, _ => none
  | n + 1, p => if free p then some p else probePort free n (p + 1)

/-- `_pick_free_port(start)`: probe 10 ports from `max 1 start`, falling back
to `start` when none is free. -/
def pickFreePort (free : Int → Bool) (start : Int) : Int :=
  (probePort free 10 (max 1 start)).getD start

/-! ### Client: `TransmissionController._rpc` retry loop
(src/torsh/client.py lines 35-39 and 59-84)

The outcome of attempt `i` is given by `outcomes i`; a run records the result
raised/returned, how many attempts were made, how many times the cached client
was reset, and the sleeps between attempts (seconds, as rationals). -/

/-- `_default_delay = max(0.1, backoff)` with the constructor default 0.6. -/
def defaultDelay : ℚ := max (1 / 10) (3 / 5)

/-- The backoff multiplier `1.6` of `delay = min(delay * 1.6, 5.0)`. -/
def backoffMultiplier : ℚ := 8 / 5

/-- Record of one `_rpc` run. -/
structure RpcRun (E A : Type) where
  result : Except E A
  attemptsMade : Nat
  resets : Nat
  delays : List ℚ

/-- The `for attempt in range(attempts)` loop of `_rpc`. `remaining` counts the
attempts still allowed, `i` indexes the current attempt, `d` is the current
delay, `last` the last error seen. -/
def rpcAux (outcomes : Nat → Except E A) (fallbackErr : E) :
    Nat → Nat → ℚ → Option E → RpcRun E A
  | 0, _, _, last => ⟨.error (last.getD fallbackErr), 0, 0, []⟩
  | n + 1, i, d, _ =>
      match outcomes i with
      | .ok a => ⟨.ok a, 1, 0, []⟩
      | .error e =>
          if n = 0 then ⟨.error e, 1, 1, []⟩
          else
            let rest := rpcAux outcomes fallbackErr n (i + 1)
              (min (d * backoffMultiplier) 5) (some e)
            ⟨rest.result, rest.attemptsMade + 1, rest.resets + 1, d :: rest.delays⟩

/-- `_rpc` with retry budget `retries`: `retries + 1` total attempts, delay
starting at `defaultDelay`. -/
def rpcRun (outcomes : Nat → Except E A) (fallbackErr : E) (retries : Nat) :
    RpcRun E A :=
  rpcAux outcomes fallbackErr (retries + 1) 0 defaultDelay none

/-- The sequence of inter-attempt delays produced from an initial delay. -/
def delaySeq : Nat → ℚ → List ℚ
  | 0, _ => []
  | n + 1, d => d :: delaySeq n (min (d * backoffMultiplier) 5)

/-! ### UI: `_check_connection` / `_notify_connection_change`
(src/torsh/ui/app.py lines 381-413)

One cycle's probing is abstracted by the outcome of the first
`ensure_connected` call and, for the restart path, the outcome of the retry
after `maybe_start_daemon`. -/

/-- Outcome of the first `ensure_connected` attempt in a cycle. -/
inductive ProbeRes where
  | ok
  | transErr
  | otherErr
deriving DecidableEq

/-- The probe outcomes one `_check_connection` cycle can consume. -/
structure ConnInput where
  first : ProbeRes
  retryOk : Bool
deriving DecidableEq

/-- One `_check_connection` cycle: given
`flagsOn = (daemon.restart_on_fail and daemon.autostart)` and the previous
`_connection_state`, returns the new state, the connectivity-change
notifications emitted via `_notify_connection_change` (carrying the new
state), and whether the "Daemon restarted" notice fired. -/
def checkConnection (flagsOn : Bool) (prev : Bool) (inp : ConnInput) :
    Bool × List Bool × Bool :=
  let ok : Bool :=
    match inp.first with
    | .ok => true
    | .transErr => false
    | .otherErr => flagsOn && inp.retryOk
  let restarted : Bool :=
    match inp.first with
    | .otherErr => flagsOn && inp.retryOk
    | _ => false
  (ok, if ok ≠ prev then [ok] else [], restarted)

/-- Run a sequence of cycles, threading `_connection_state` and concatenating
the connectivity-change notifications. -/
def runConn (flagsOn : Bool) : Bool → List ConnInput → Bool × List Bool
  | prev, [] => (prev, [])
  | prev, inp :: rest =>
      let c := checkConnection flagsOn prev inp
      let r := runConn flagsOn c.1 rest
      (r.1, c.2.1 ++ r.2)

/-- The successive `_connection_state` values over a run. -/
def connSteps (flagsOn : Bool) : Bool → List ConnInput → List Bool
  | _, [] => []
  | prev, inp :: rest =>
      let s := (checkConnection flagsOn prev inp).1
      s :: connSteps flagsOn s rest

/-- One notification per state transition, none otherwise: the expected
notification stream for a state sequence. -/
def transitionList : Bool → List Bool → List Bool
  | _, [] => []
  | prev, s :: rest => (if s ≠ prev then [s] else []) ++ transitionList s rest

/-! ### Client: `set_speed_limits` / `set_torrent_speed`
(src/torsh/client.py lines 142-151 and 168-177)

Each builds a keyword-argument record and issues the RPC only when the record
is non-empty; `none` models an absent keyword. -/

/-- The session arguments `set_speed_limits` can send. -/
structure SessionSpeedArgs where
  speed_limit_down_enabled : Option Bool
  download_speed_limit : Option Int
  speed_limit_up_enabled : Option Bool
  upload_speed_limit : Option Int
deriving DecidableEq

/-- The torrent arguments `set_torrent_speed` can send. -/
structure TorrentSpeedArgs where
  downloadLimit : Option Int
  downloadLimited : Option Bool
  uploadLimit : Option Int
  uploadLimited : Option Bool
deriving DecidableEq

/-- `set_speed_limits(down_kib, up_kib)`: `some req` iff a `set_session` RPC is
issued, carrying exactly the keywords built. -/
def setSpeedLimitsRequest (downKib upKib : Option Int) : Option SessionSpeedArgs :=
  let req : SessionSpeedArgs :=
    { speed_limit_down_enabled := downKib.map (fun v => decide (0 < v))
      download_speed_limit := downKib.map (fun v => max 0 v)
      speed_limit_up_enabled := upKib.map (fun v => decide (0 < v))
      upload_speed_limit := upKib.map (fun v => max 0 v) }
  if downKib = none ∧ upKib = none then none else some req

/-- `set_torrent_speed(id, down_kib, up_kib)`: `some req` iff a `set_torrent`
RPC is issued. -/
def setTorrentSpeedRequest (downKib upKib : Option Int) : Option TorrentSpeedArgs :=
  let req : TorrentSpeedArgs :=
    { downloadLimit := downKib.map (fun v => max 0 v)
      downloadLimited := downKib.map (fun v => decide (0 < v))
      uploadLimit := upKib.map (fun v => max 0 v)
      uploadLimited := upKib.map (fun v => decide (0 < v)) }
  if downKib = none ∧ upKib = none then none else some req

/-! ### UI: `_auto_retry_failed` (src/torsh/ui/app.py lines 426-442)

A polled torrent is reduced to its id, status string and completion percent.
The `_auto_retry_attempts` dict is modelled as a total counter function
(absent = 0; `pop` = reset to 0, observably identical). -/

/-- The fields of a `TorrentView` the refresh automations consult. -/
structure TView where
  id : Int
  status : String
  percent : ℚ

/-- Python `str.lower()` (character-wise). -/
def lowerStr (s : String) : String := ⟨s.data.map Char.toLower⟩

/-- Does the needle occur at the head of the haystack? -/
def startsList : List Char → List Char → Bool
  | [], _ => true
  | _ :: _, [] => false
  | a :: as, b :: bs => a == b && startsList as bs

/-- Substring containment on character lists. -/
def containsList (needle : List Char) : List Char → Bool
  | [] => needle.isEmpty
  | h :: t => startsList needle (h :: t) || containsList needle t

/-- Python `needle in hay` on strings. -/
def strContains (hay needle : String) : Bool :=
  containsList needle.data hay.data

/-- `"error" in t.status.lower() and t.percent_done < 100.0`. -/
def errCond (t : TView) : Bool :=
  strContains (lowerStr t.status) "error" && decide (t.percent < 100)

/-- One iteration of the `_auto_retry_failed` loop body over `(counters,
starts-issued-so-far)`. -/
def retryStep (acc : (Int → Nat) × List Int) (t : TView) : (Int → Nat) × List Int :=
  if errCond t then
    let a := acc.1 t.id
    if 3 ≤ a then acc
    else (Function.update acc.1 t.id (a + 1), acc.2 ++ [t.id])
  else
    (Function.update acc.1 t.id 0, acc.2)

/-- `_auto_retry_failed(torrents)`: new counters and the ids for which a
restart was issued this cycle. -/
def autoRetryFailed (f : Int → Nat) (poll : List TView) : (Int → Nat) × List Int :=
  poll.foldl retryStep (f, [])

/-- Run `_auto_retry_failed` over successive polls, concatenating the issued
restarts. -/
def runRetry (f : Int → Nat) : List (List TView) → (Int → Nat) × List Int
  | [] => (f, [])
  | p :: ps =>
      let c := autoRetryFailed f p
      let r := runRetry c.1 ps
      (r.1, c.2 ++ r.2)

/-- The torrent with id `id` appears exactly once in the poll, in an error
status below 100% completion. -/
def errOnce (id : Int) (p : List TView) : Prop :=
  ∃ l1 t l2, p = l1 ++ t :: l2 ∧ t.id = id ∧ errCond t = true ∧
    (∀ u ∈ l1, u.id ≠ id) ∧ (∀ u ∈ l2, u.id ≠ id)

/-! ### UI: `_auto_resume` and the user-paused set
(src/torsh/ui/app.py lines 444-461, 971-988, 997-1002, 1024-1029) -/

/-- `status in {"stopped", "paused"}` after lowering. -/
def statusPaused (s : String) : Bool :=
  lowerStr s = "stopped" || lowerStr s = "paused"

/-- `torrent.status in {"downloading", "seeding", "checking"}`: the statuses
for which `action_toggle` pauses (and records the id as user-paused). -/
def statusActive (s : String) : Bool :=
  s = "downloading" || s = "seeding" || s = "checking"

/-- The `to_start` list `_auto_resume` builds and starts. -/
def autoResume (userPaused : List Int) (poll : List TView) : List Int :=
  (poll.filter (fun t =>
    decide (t.percent < 100) && statusPaused t.status &&
      !(userPaused.contains t.id))).map TView.id

/-- The user actions that can touch the `_user_paused` set: `action_toggle` on
a torrent currently shown with status `status`, or a removal. -/
inductive UserEv where
  | toggle (id : Int) (status : String)
  | remove (id : Int)

/-- Set insertion keeping list-as-set semantics. -/
def insertId (up : List Int) (id : Int) : List Int :=
  if up.contains id then up else id :: up

/-- `set.discard`. -/
def removeId (up : List Int) (id : Int) : List Int :=
  up.filter (fun x => x ≠ id)

/-- Effect of a user action on `_user_paused`: pausing an active torrent adds
its id; resuming (toggle on a non-active status) or removing discards it. -/
def applyUserEv (up : List Int) : UserEv → List Int
  | .toggle id status => if statusActive status then insertId up id else removeId up id
  | .remove id => removeId up id

/-! ### UI: completion detection and `_auto_verify`
(src/torsh/ui/app.py lines 415-424 and 463-474)

A poll is a list of `(id, percent_done)` pairs. `verifyOk id` tells whether
the `verify` RPC issued for `id` succeeds (only on success is the id added to
`_verified_ids`). -/

/-- `old_torrents = {t.id: t for t in self.torrents}`: dict-comprehension
lookup, later entries winning. -/
def dictLookup (l : List (Int × ℚ)) (id : Int) : Option ℚ :=
  l.foldl (fun acc p => if p.1 = id then some p.2 else acc) none

/-- `t.id in old_torrents and old_torrents[t.id].percent_done < 100.0`. -/
def prevBelow (old : List (Int × ℚ)) (id : Int) : Bool :=
  match dictLookup old id with
  | some p => decide (p < 100)
  | none => false

/-- The state the completion logic threads across refresh cycles. -/
structure CompState where
  completed : List Int
  verified : List Int
  prev : List (Int × ℚ)

/-- Accumulator for one cycle's loop over the fresh poll. -/
structure CycAcc where
  completed : List Int
  verified : List Int
  notifs : List Int
  verifies : List Int

/-- The body of the completion-detection loop for one torrent `t`, including
the inlined `_auto_verify`: `notifs` records ids for which a "Completed"
notification fired, `verifies` the ids for which a verify RPC was issued. -/
def procCompletion (old : List (Int × ℚ)) (verifyOk : Int → Bool)
    (acc : CycAcc) (t : Int × ℚ) : CycAcc :=
  if decide (100 ≤ t.2) && !(acc.completed.contains t.1) then
    let notifs' :=
      match dictLookup old t.1 with
      | some p => if p < 100 then acc.notifs ++ [t.1] else acc.notifs
      | none => acc.notifs
    let completed' := t.1 :: acc.completed
    if acc.verified.contains t.1 then
      ⟨completed', acc.verified, notifs', acc.verifies⟩
    else
      ⟨completed',
       if verifyOk t.1 then t.1 :: acc.verified else acc.verified,
       notifs',
       acc.verifies ++ [t.1]⟩
  else acc

/-- One `_refresh_torrents` cycle restricted to completion detection: returns
the new state plus this cycle's notifications and verify issuances. -/
def refreshCycle (verifyOk : Int → Bool) (s : CompState) (poll : List (Int × ℚ)) :
    CompState × List Int × List Int :=
  let acc := poll.foldl (procCompletion s.prev verifyOk) ⟨s.completed, s.verified, [], []⟩
  (⟨acc.completed, acc.verified, poll⟩, acc.notifs, acc.verifies)

/-- Run successive refresh cycles, concatenating notifications and verifies. -/
def runRefresh (verifyOk : Int → Bool) (s : CompState) :
    List (List (Int × ℚ)) → CompState × List Int × List Int
  | [] => (s, [], [])
  | p :: ps =>
      let c := refreshCycle verifyOk s p
      let r := runRefresh verifyOk c.1 ps
      (r.1, c.2.1 ++ r.2.1, c.2.2 ++ r.2.2)

/-- App start-up state: empty tracking sets, no previous poll. -/
def initComp : CompState := ⟨[], [], []⟩

/-! ### Config store (src/torsh/config.py)

Floats are rationals, `Path` values are path strings; `Path(value)
.expanduser()` is modelled by `expandUser home`, which substitutes `home` for
a leading `~` (bare or followed by `/`). Python `str.strip()` is `pyStrip`. -/

/-- Drop whitespace at both ends of a character list. -/
def stripChars (l : List Char) : List Char :=
  ((l.dropWhile Char.isWhitespace).reverse.dropWhile Char.isWhitespace).reverse

/-- Python `s.strip()`. -/
def pyStrip (s : String) : String := ⟨stripChars s.data⟩

/-- `Path(p).expanduser()` with home directory `home`: a leading bare `~` (or
`~/`) is replaced by the home directory, anything else is untouched. -/
def expandUser (home : String) (p : String) : String :=
  match p.data with
  | c :: rest =>
      if c = '~' ∧ (rest = [] ∨ rest.head? = some '/') then ⟨home.data ++ rest⟩
      else p
  | [] => p

/-- Python `s or default` on strings. -/
def pyOrStr (s : String) (d : String) : String := if s = "" then d else s

/-- Python `l or []` on lists. -/
def pyOrList (l : List String) : List String := if l = [] then [] else l

/-- Python `u or None` on an optional string: empty collapses to `None`. -/
def orNone : Option String → Option String
  | none => none
  | some s => if s = "" then none else some s

/-- `_safe_int` on a value that is already an int. -/
def safeIntClamp (lo hi v : Int) : Int := min hi (max lo v)

/-- `RpcConfig`. -/
structure RpcConfig where
  host : String
  port : Int
  username : Option String
  password : Option String
  timeout : ℚ
deriving DecidableEq

/-- `RpcConfig.normalize`. -/
def normRpc (c : RpcConfig) : RpcConfig :=
  { host := pyOrStr (pyStrip c.host) "localhost"
    port := safeIntClamp 1 65535 c.port
    username := orNone c.username
    password := orNone c.password
    timeout := max 1 c.timeout }

/-- `DaemonConfig` (paths as strings). -/
structure DaemonConfig where
  autostart : Bool
  binary : String
  extra_args : List String
  install_missing : Bool
  restart_on_fail : Bool
  log_path : String
deriving DecidableEq

/-- `[str(arg).strip() for arg in args if str(arg).strip()]`. -/
def normArgs (l : List String) : List String :=
  (l.map pyStrip).filter (fun s => s ≠ "")

/-- `DaemonConfig.normalize` (a `Path` is always truthy, so the stored
`log_path` is kept and expanded). -/
def normDaemon (home : String) (c : DaemonConfig) : DaemonConfig :=
  { autostart := c.autostart
    binary := pyOrStr (pyStrip c.binary) "transmission-daemon"
    extra_args := normArgs c.extra_args
    install_missing := c.install_missing
    restart_on_fail := c.restart_on_fail
    log_path := expandUser home c.log_path }

/-- `PathConfig`. -/
structure PathConfig where
  download_dir : String
  config_dir : String
deriving DecidableEq

/-- `PathConfig.normalize`. -/
def normPaths (home : String) (c : PathConfig) : PathConfig :=
  { download_dir := expandUser home c.download_dir
    config_dir := expandUser home c.config_dir }

/-- `UIConfig`. -/
structure UIConfig where
  refresh_interval : ℚ
  sort_column : Option Int
  sort_desc : Bool
  filter_text : String
  status_filter : String
  progress_filter : String
deriving DecidableEq

/-- `sort_column in (None, 1, 2, 3, 4, 5, 6, 7, 8)`. -/
def allowedSort : Option Int → Bool
  | none => true
  | some i => decide (1 ≤ i ∧ i ≤ 8)

/-- `UIConfig.normalize`. -/
def normUI (c : UIConfig) : UIConfig :=
  { refresh_interval := max (1 / 2) (min 30 c.refresh_interval)
    sort_column := if allowedSort c.sort_column then c.sort_column else none
    sort_desc := c.sort_desc
    filter_text := pyOrStr c.filter_text ""
    status_filter := pyOrStr c.status_filter "any"
    progress_filter := pyOrStr c.progress_filter "any" }

/-- `AppConfig`. -/
structure AppConfig where
  rpc : RpcConfig
  daemon : DaemonConfig
  paths : PathConfig
  ui : UIConfig
deriving DecidableEq

/-- `AppConfig.normalize`. -/
def normalizeApp (home : String) (c : AppConfig) : AppConfig :=
  { rpc := normRpc c.rpc
    daemon := normDaemon home c.daemon
    paths := normPaths home c.paths
    ui := normUI c.ui }

/-- The YAML payload `_to_payload` serializes (`None` credentials become `""`,
paths become their strings). -/
structure Payload where
  host : String
  port : Int
  username : String
  password : String
  timeout : ℚ
  autostart : Bool
  binary : String
  extra_args : List String
  install_missing : Bool
  restart_on_fail : Bool
  log_path : String
  download_dir : String
  config_dir : String
  refresh_interval : ℚ
  sort_column : Option Int
  sort_desc : Bool
  filter_text : String
  status_filter : String
  progress_filter : String
deriving DecidableEq

/-- `_to_payload`. -/
def toPayload (c : AppConfig) : Payload :=
  { host := c.rpc.host
    port := c.rpc.port
    username := c.rpc.username.getD ""
    password := c.rpc.password.getD ""
    timeout := c.rpc.timeout
    autostart := c.daemon.autostart
    binary := c.daemon.binary
    extra_args := c.daemon.extra_args
    install_missing := c.daemon.install_missing
    restart_on_fail := c.daemon.restart_on_fail
    log_path := c.daemon.log_path
    download_dir := c.paths.download_dir
    config_dir := c.paths.config_dir
    refresh_interval := c.ui.refresh_interval
    sort_column := c.ui.sort_column
    sort_desc := c.ui.sort_desc
    filter_text := c.ui.filter_text
    status_filter := c.ui.status_filter
    progress_filter := c.ui.progress_filter }

/-- `_merge_config` on a document holding every payload key (as a saved file
does), followed by its trailing `cfg.normalize()`. -/
def mergeConfig (home : String) (p : Payload) : AppConfig :=
  normalizeApp home
    { rpc :=
        { host := p.host
          port := safeIntClamp 1 65535 p.port
          username := orNone (some p.username)
          password := orNone (some p.password)
          timeout := p.timeout }
      daemon :=
        { autostart := p.autostart
          binary := p.binary
          extra_args := pyOrList p.extra_args
          install_missing := p.install_missing
          restart_on_fail := p.restart_on_fail
          log_path := expandUser home p.log_path }
      paths :=
        { download_dir := expandUser home p.download_dir
          config_dir := expandUser home p.config_dir }
      ui :=
        { refresh_interval := p.refresh_interval
          sort_column := p.sort_column
          sort_desc := p.sort_desc
          filter_text := pyOrStr p.filter_text ""
          status_filter := pyOrStr p.status_filter "any"
          progress_filter := pyOrStr p.progress_filter "any" } }

/-- Saving then loading: `save_config` persists `_to_payload(c.normalize())`,
`load_config` merges the read document through `_merge_config`. -/
def loadAfterSave (home : String) (c : AppConfig) : AppConfig :=
  mergeConfig home (toPayload (normalizeApp home c))

/-! ## Theorems -/

/-! ### C1: percent derivation -/

/-- C1 counterexample: with `sizeWhenDone`/`leftUntilDone` absent and a
reported completion fraction of 150, `_map_torrent` derives `percent_done =
150`, outside `[0, 100]` — the unconditional range claim fails on the
fallback branch, which does not clamp. -/
theorem C1_counterexample :
    mapPercentDone ⟨some 150, none, none, none, none, none⟩ = 150 ∧
      ¬ mapPercentDone ⟨some 150, none, none, none, none, none⟩ ≤ 100 := by
  have h : mapPercentDone ⟨some 150, none, none, none, none, none⟩ = 150 := by
    simp [mapPercentDone, truthyOr, fallbackPercent, rawPercent]
  exact ⟨h, by rw [h]; norm_num⟩

/-- C1 (amended): the derivation rule holds exactly as stated — when
`sizeWhenDone > 0` and `leftUntilDone` is present the percent equals the
clamp and lies in `[0, 100]`; otherwise it is the reported fraction scaled by
100 only if that fraction is ≤ 1, and then lies in `[0, 100]` exactly when the
reported fraction lies in `[0, 100]` (the fallback branch never clamps). -/
theorem C1_amended (t : RawTorrent) :
    (∀ s l, truthyOr t.sizeWhenDone t.size_when_done = some s →
        truthyOr t.leftUntilDone t.left_until_done = some l → 0 < s →
        mapPercentDone t = max 0 (min 100 ((s - l) / s * 100)) ∧
          0 ≤ mapPercentDone t ∧ mapPercentDone t ≤ 100) ∧
    ((¬ ∃ s l, truthyOr t.sizeWhenDone t.size_when_done = some s ∧
          truthyOr t.leftUntilDone t.left_until_done = some l ∧ 0 < s) →
        mapPercentDone t = fallbackPercent t ∧
        (0 ≤ rawPercent t → rawPercent t ≤ 100 →
          0 ≤ mapPercentDone t ∧ mapPercentDone t ≤ 100)) := by
  constructor
  · intro s l hs hl hpos
    have heq : mapPercentDone t = max 0 (min 100 ((s - l) / s * 100)) := by
      unfold mapPercentDone
      rw [hs, hl]
      simp [hpos]
    refine ⟨heq, ?_, ?_⟩
    · rw [heq]; exact le_max_left 0 _
    · rw [heq]
      exact max_le (by norm_num) (min_le_left _ _)
  · intro hno
    have hfb : mapPercentDone t = fallbackPercent t := by
      unfold mapPercentDone
      rcases hS : truthyOr t.sizeWhenDone t.size_when_done with _ | s
      · rfl
      · rcases hL : truthyOr t.leftUntilDone t.left_until_done with _ | l
        · rfl
        · have : ¬ 0 < s := fun hpos => hno ⟨s, l, hS, hL, hpos⟩
          simp [this]
    refine ⟨hfb, fun h0 h100 => ?_⟩
    rw [hfb]
    unfold fallbackPercent
    by_cases h1 : rawPercent t ≤ 1
    · simp only [h1, if_pos]
      constructor
      · positivity
      · calc rawPercent t * 100 ≤ 1 * 100 :=
              mul_le_mul_of_nonneg_right h1 (by norm_num)
          _ = 100 := by norm_num
    · simp only [h1, if_neg, not_false_iff]
      exact ⟨h0, h100⟩

/-- C1 witness: a torrent with `sizeWhenDone = 4`, `leftUntilDone = 1` derives
the clamped 75 percent, inside the bounds. -/
theorem C1_witness :
    mapPercentDone ⟨none, none, some 4, none, some 1, none⟩ =
        max 0 (min 100 ((4 - 1) / 4 * 100)) ∧
      0 ≤ mapPercentDone ⟨none, none, some 4, none, some 1, none⟩ ∧
      mapPercentDone ⟨none, none, some 4, none, some 1, none⟩ ≤ 100 :=
  (C1_amended ⟨none, none, some 4, none, some 1, none⟩).1 4 1 (by decide)
    (by decide) (by norm_num)

/-! ### C6: settings.json merge -/

/-- `setKey` leaves every other key's binding unchanged. -/
theorem lookupKey_setKey_ne (d : List (String × JVal)) (k k' : String)
    (v : JVal) (h : k ≠ k') : lookupKey (setKey d k' v) k = lookupKey d k := by
  induction d with
  | nil =>
      simp [setKey, lookupKey, List.find?, h.symm]
  | cons a rest ih =>
      by_cases ha : a.1 = k'
      · simp only [setKey, ha, if_pos]
        simp [lookupKey, List.find?, h.symm, ha ▸ h.symm]
      · simp only [setKey, ha, if_neg, not_false_iff]
        by_cases hak : a.1 = k
        · simp [lookupKey, List.find?, hak]
        · simpa [lookupKey, List.find?, hak] using ih

/-- C6 counterexample: `_write_settings_ports` also overwrites the
`peer-port-random-on-start` key — a pre-existing `true` value becomes `false`
even though that key is neither `rpc-port` nor `peer-port`. -/
theorem C6_counterexample :
    lookupKey (writeSettingsPorts [("peer-port-random-on-start", JVal.bool true)]
        9091 (some 51413)) "peer-port-random-on-start" = some (JVal.bool false) ∧
      lookupKey [("peer-port-random-on-start", JVal.bool true)]
        "peer-port-random-on-start" = some (JVal.bool true) ∧
      "peer-port-random-on-start" ≠ "rpc-port" ∧
      "peer-port-random-on-start" ≠ "peer-port" := by
  refine ⟨?_, ?_, ?_, ?_⟩ <;> decide

/-- C6 (amended): the write touches only `rpc-port`, `peer-port` and
`peer-port-random-on-start`; every key outside these three keeps its previous
value. -/
theorem C6_amended (data : List (String × JVal)) (rpc : Int)
    (peer : Option Int) (k : String) (h1 : k ≠ "rpc-port")
    (h2 : k ≠ "peer-port") (h3 : k ≠ "peer-port-random-on-start") :
    lookupKey (writeSettingsPorts data rpc peer) k = lookupKey data k := by
  rcases peer with _ | p
  · exact lookupKey_setKey_ne data k "rpc-port" _ h1
  · have hw : writeSettingsPorts data rpc (some p) =
        if p ≠ 0 then
          setKey (setKey (setKey data "rpc-port" (JVal.num rpc))
            "peer-port" (JVal.num p)) "peer-port-random-on-start" (JVal.bool false)
        else setKey data "rpc-port" (JVal.num rpc) := rfl
    rw [hw]
    by_cases hp : p ≠ 0
    · rw [if_pos hp, lookupKey_setKey_ne _ _ _ _ h3,
        lookupKey_setKey_ne _ _ _ _ h2, lookupKey_setKey_ne _ _ _ _ h1]
    · rw [if_neg hp]
      exact lookupKey_setKey_ne data k "rpc-port" _ h1

/-- C6 witness: an unrelated `download-dir` entry survives the port write. -/
theorem C6_witness :
    lookupKey (writeSettingsPorts [("download-dir", JVal.str "/data")] 9091
        (some 51413)) "download-dir" =
      lookupKey [("download-dir", JVal.str "/data")] "download-dir" :=
  C6_amended [("download-dir", JVal.str "/data")] 9091 (some 51413)
    "download-dir" (by decide) (by decide) (by decide)

/-! ### C10: speed-limit setters -/

/-- C10: with both limits `None` no RPC request is built at all (complete
no-op); with exactly one limit given, the request carries only that
direction's keywords — the limit floored at 0 and the enabled flag set iff the
value is positive. -/
theorem C10_speed_requests :
    (∀ d u : Option Int,
        (setSpeedLimitsRequest d u = none ↔ d = none ∧ u = none) ∧
        (setTorrentSpeedRequest d u = none ↔ d = none ∧ u = none)) ∧
    (∀ v : Int, setSpeedLimitsRequest (some v) none =
        some ⟨some (decide (0 < v)), some (max 0 v), none, none⟩) ∧
    (∀ v : Int, setSpeedLimitsRequest none (some v) =
        some ⟨none, none, some (decide (0 < v)), some (max 0 v)⟩) ∧
    (∀ v : Int, setTorrentSpeedRequest (some v) none =
        some ⟨some (max 0 v), some (decide (0 < v)), none, none⟩) ∧
    (∀ v : Int, setTorrentSpeedRequest none (some v) =
        some ⟨none, none, some (max 0 v), some (decide (0 < v))⟩) := by
  refine ⟨fun d u => ⟨?_, ?_⟩, fun v => ?_, fun v => ?_, fun v => ?_, fun v => ?_⟩ <;>
    · first
      | (constructor
         · intro h
           by_contra hc
           simp only [setSpeedLimitsRequest, setTorrentSpeedRequest] at h
           split at h <;> simp_all
         · rintro ⟨rfl, rfl⟩
           rfl)
      | simp [setSpeedLimitsRequest, setTorrentSpeedRequest, Option.map]

/-! ### C7: port selection -/

/-- The probe returns `none` exactly when all `n` consecutive candidates are
occupied. -/
theorem probePort_eq_none (free : Int → Bool) :
    ∀ (n : Nat) (p : Int),
      probePort free n p = none ↔ ∀ i : Nat, i < n → free (p + i) = false := by
  intro n
  induction n with
  | zero => intro p; simp [probePort]
  | succ m ih =>
      intro p
      by_cases hf : free p = true
      · simp only [probePort, hf, if_pos]
        constructor
        · intro h; cases h
        · intro h
          have := h 0 (Nat.succ_pos m)
          simp at this
          rw [hf] at this
          cases this
      · have hf' : free p = false := by
          cases h : free p
          · rfl
          · exact absurd h hf
        simp only [probePort, hf', Bool.false_eq_true, if_neg, not_false_iff]
        rw [ih (p + 1)]
        constructor
        · intro h i hi
          cases i with
          | zero => simpa using hf'
          | succ j =>
              have := h j (Nat.lt_of_succ_lt_succ hi)
              have harith : p + (j + 1 : Nat) = p + 1 + j := by push_cast; ring
              rw [harith]
              exact this
        · intro h j hj
          have := h (j + 1) (Nat.succ_lt_succ hj)
          have harith : p + (j + 1 : Nat) = p + 1 + j := by push_cast; ring
          rw [harith] at this
          exact this

/-- When the probe finds a port it is the first free candidate. -/
theorem probePort_eq_some (free : Int → Bool) :
    ∀ (n : Nat) (p r : Int), probePort free n p = some r →
      free r = true ∧ p ≤ r ∧ r < p + n ∧
        ∀ q : Int, p ≤ q → q < r → free q = false := by
  intro n
  induction n with
  | zero => intro p r h; cases h
  | succ m ih =>
      intro p r h
      by_cases hf : free p = true
      · simp only [probePort, hf, if_pos, Option.some.injEq] at h
        subst h
        refine ⟨hf, le_refl _, ?_, ?_⟩
        · have : (0 : Int) < (m + 1 : Nat) := by positivity
          omega
        · intro q hq1 hq2; omega
      · have hf' : free p = false := by
          cases h2 : free p
          · rfl
          · exact absurd h2 hf
        simp only [probePort, hf', Bool.false_eq_true, if_neg, not_false_iff] at h
        obtain ⟨h1, h2, h3, h4⟩ := ih (p + 1) r h
        refine ⟨h1, by omega, ?_, ?_⟩
        · have : r < p + 1 + m := h3
          have hc : ((m + 1 : Nat) : Int) = (m : Int) + 1 := by push_cast; ring
          omega
        · intro q hq1 hq2
          rcases eq_or_lt_of_le hq1 with heq | hlt
          · rw [← heq]; exact hf'
          · exact h4 q (by omega) hq2

/-- C7: starting at a valid port, `_pick_free_port` bind-tests the 10
consecutive candidates from `start`: if all are occupied it falls back to
`start` itself; as soon as some candidate is free it returns the first free
one (which lies in `[start, start+10)`). -/
theorem C7_pick_free_port (free : Int → Bool) (start : Int) (hs : 1 ≤ start) :
    ((∀ i : Nat, i < 10 → free (start + i) = false) →
        pickFreePort free start = start) ∧
    (∀ i : Nat, i < 10 → free (start + i) = true →
        free (pickFreePort free start) = true ∧
        start ≤ pickFreePort free start ∧
        pickFreePort free start < start + 10 ∧
        ∀ q : Int, start ≤ q → q < pickFreePort free start → free q = false) := by
  have hmax : max 1 start = start := max_eq_right hs
  constructor
  · intro hall
    unfold pickFreePort
    rw [hmax, (probePort_eq_none free 10 start).mpr hall]
    rfl
  · intro i hi hfree
    have hne : probePort free 10 start ≠ none := by
      intro hn
      have := (probePort_eq_none free 10 start).mp hn i hi
      rw [hfree] at this
      cases this
    rcases hr : probePort free 10 start with _ | r
    · exact absurd hr hne
    · have hp : pickFreePort free start = r := by
        unfold pickFreePort
        rw [hmax, hr]
        rfl
      obtain ⟨h1, h2, h3, h4⟩ := probePort_eq_some free 10 start r hr
      rw [hp]
      exact ⟨h1, h2, by exact_mod_cast h3, h4⟩

/-- C7 witness: with ports 9091–9100 all occupied the fallback returns 9091;
with only 9091 occupied the probe returns the first free candidate. -/
theorem C7_witness :
    pickFreePort (fun _ => false) 9091 = 9091 ∧
      ((pickFreePort (fun p => p != 9091) 9091 != 9091) = true ∧
        9091 ≤ pickFreePort (fun p => p != 9091) 9091 ∧
        pickFreePort (fun p => p != 9091) 9091 < 9091 + 10 ∧
        ∀ q : Int, 9091 ≤ q → q < pickFreePort (fun p => p != 9091) 9091 →
          (q != 9091) = false) := by
  constructor
  · exact (C7_pick_free_port (fun _ => false) 9091 (by norm_num)).1 (fun i _ => rfl)
  · exact (C7_pick_free_port (fun p => p != 9091) 9091 (by norm_num)).2 1
      (by norm_num) (by decide)

/-! ### C8: RPC retry loop -/

/-- `delaySeq` produces one inter-attempt delay per retry. -/
theorem delaySeq_length : ∀ (n : Nat) (d : ℚ), (delaySeq n d).length = n := by
  intro n
  induction n with
  | zero => intro d; rfl
  | succ m ih => intro d; simp [delaySeq, ih]

/-- Consecutive delays are related by the capped multiplier. -/
theorem delaySeq_step : ∀ (n : Nat) (d : ℚ) (k : Nat)
    (h1 : k + 1 < (delaySeq n d).length) (h0 : k < (delaySeq n d).length),
    (delaySeq n d).get ⟨k + 1, h1⟩ =
      min ((delaySeq n d).get ⟨k, h0⟩ * backoffMultiplier) 5 := by
  intro n
  induction n with
  | zero =>
      intro d k h1 h0
      rw [delaySeq_length] at h1
      exact absurd h1 (by omega)
  | succ m ih =>
      intro d k h1 h0
      cases k with
      | zero =>
          cases m with
          | zero =>
              rw [delaySeq_length] at h1
              exact absurd h1 (by omega)
          | succ m' => simp [delaySeq]
      | succ j =>
          have h1' : j + 1 < (delaySeq m (min (d * backoffMultiplier) 5)).length := by
            rw [delaySeq_length]
            rw [delaySeq_length] at h1
            omega
          have h0' : j < (delaySeq m (min (d * backoffMultiplier) 5)).length := by
            rw [delaySeq_length]
            rw [delaySeq_length] at h0
            omega
          have := ih (min (d * backoffMultiplier) 5) j h1' h0'
          simpa [delaySeq] using this

/-- When every attempt fails, the loop runs all its attempts, resets the
cached client each time, sleeps the delay sequence, and raises the last
error. -/
theorem rpcAux_allFail (outcomes : Nat → Except E A) (errs : Nat → E) (fb : E) :
    ∀ (n i : Nat) (d : ℚ) (last : Option E),
      (∀ j : Nat, j ≤ n → outcomes (i + j) = .error (errs (i + j))) →
      rpcAux outcomes fb (n + 1) i d last =
        ⟨.error (errs (i + n)), n + 1, n + 1, delaySeq n d⟩ := by
  intro n
  induction n with
  | zero =>
      intro i d last h
      have h0 : outcomes i = .error (errs i) := by simpa using h 0 (Nat.zero_le _)
      simp [rpcAux, h0, delaySeq]
  | succ m ih =>
      intro i d last h
      have h0 : outcomes i = .error (errs i) := by simpa using h 0 (Nat.zero_le _)
      have hrest := ih (i + 1) (min (d * backoffMultiplier) 5) (some (errs i))
        (fun j hj => by
          have := h (j + 1) (by omega)
          have harith : i + (j + 1) = i + 1 + j := by omega
          rwa [harith] at this)
      have hstep : rpcAux outcomes fb (m + 1 + 1) i d last =
          ⟨(rpcAux outcomes fb (m + 1) (i + 1) (min (d * backoffMultiplier) 5)
              (some (errs i))).result,
            (rpcAux outcomes fb (m + 1) (i + 1) (min (d * backoffMultiplier) 5)
              (some (errs i))).attemptsMade + 1,
            (rpcAux outcomes fb (m + 1) (i + 1) (min (d * backoffMultiplier) 5)
              (some (errs i))).resets + 1,
            d :: (rpcAux outcomes fb (m + 1) (i + 1) (min (d * backoffMultiplier) 5)
              (some (errs i))).delays⟩ := by
        simp [rpcAux, h0]
      rw [hstep, hrest]
      have harith : i + 1 + m = i + (m + 1) := by omega
      rw [harith]
      rfl

/-- C8: with retry budget `retries` and every attempt failing, exactly
`retries + 1` attempts are made, the cached connection is invalidated after
each of them, the sleeps follow `delaySeq` — starting at the 0.6-second
default, each next delay the previous one times the 1.6 multiplier capped at
5 — and the raised error is the last attempt's error. -/
theorem C8_retry_exhaustion (retries : Nat) (outcomes : Nat → Except E A)
    (errs : Nat → E) (fb : E)
    (h : ∀ j : Nat, j ≤ retries → outcomes j = .error (errs j)) :
    rpcRun outcomes fb retries =
      ⟨.error (errs retries), retries + 1, retries + 1,
        delaySeq retries defaultDelay⟩ ∧
    defaultDelay = 3 / 5 ∧
    (3 / 2 : ℚ) ≤ backoffMultiplier ∧ backoffMultiplier ≤ 8 / 5 ∧
    (delaySeq retries defaultDelay).length = retries ∧
    (0 < retries → (delaySeq retries defaultDelay).head? = some (3 / 5)) ∧
    (∀ (k : Nat) (h1 : k + 1 < (delaySeq retries defaultDelay).length)
        (h0 : k < (delaySeq retries defaultDelay).length),
        (delaySeq retries defaultDelay).get ⟨k + 1, h1⟩ =
          min ((delaySeq retries defaultDelay).get ⟨k, h0⟩ * backoffMultiplier) 5) := by
  have hdd : defaultDelay = 3 / 5 := by
    unfold defaultDelay
    rw [max_eq_right (by norm_num)]
  refine ⟨?_, hdd, by norm_num [backoffMultiplier], by norm_num [backoffMultiplier],
    delaySeq_length retries defaultDelay, ?_, delaySeq_step retries defaultDelay⟩
  · unfold rpcRun
    have := rpcAux_allFail outcomes errs fb retries 0 defaultDelay none
      (fun j hj => by simpa using h j hj)
    simpa using this
  · intro hr
    cases retries with
    | zero => exact absurd hr (by omega)
    | succ m => simp [delaySeq, hdd]

/-- C8 witness: retry budget 2, all three attempts failing with error `i` at
attempt `i`: three attempts, three resets, final error 2. -/
theorem C8_witness :
    rpcRun (fun i => (Except.error i : Except Nat Unit)) 0 2 =
      ⟨Except.error 2, 3, 3, delaySeq 2 defaultDelay⟩ :=
  (C8_retry_exhaustion 2 (fun i => Except.error i) (fun i => i) 0
    (fun _ _ => rfl)).1

/-! ### C3: connectivity notifications -/

/-- C3: over any sequence of refresh-cycle connection checks, the
connectivity notifications emitted are exactly one per state transition
(carrying the new state) and none while the state is unchanged; in
particular, five consecutive failed polls from a connected state produce
exactly one "disconnected" notification. -/
theorem C3_connection_notifications :
    (∀ (flagsOn prev : Bool) (inps : List ConnInput),
        (runConn flagsOn prev inps).2 =
          transitionList prev (connSteps flagsOn prev inps)) ∧
    (runConn true true (List.replicate 5 ⟨ProbeRes.transErr, false⟩)).2 =
      [false] := by
  have hgen : ∀ (flagsOn : Bool) (inps : List ConnInput) (prev : Bool),
      (runConn flagsOn prev inps).2 =
        transitionList prev (connSteps flagsOn prev inps) := by
    intro flagsOn inps
    induction inps with
    | nil => intro prev; rfl
    | cons i rest ih =>
        intro prev
        exact congrArg (fun l => (checkConnection flagsOn prev i).2.1 ++ l)
          (ih (checkConnection flagsOn prev i).1)
  exact ⟨fun flagsOn prev inps => hgen flagsOn inps prev, by decide⟩

/-! ### C5: auto-resume and the user-paused set -/

/-- `contains` agrees with membership. -/
theorem contains_true_iff (l : List Int) (a : Int) :
    l.contains a = true ↔ a ∈ l := List.elem_iff

/-- `contains = false` agrees with non-membership. -/
theorem contains_false_iff (l : List Int) (a : Int) :
    l.contains a = false ↔ a ∉ l := by
  constructor
  · intro h hmem
    rw [(contains_true_iff l a).mpr hmem] at h
    cases h
  · intro h
    cases hc : l.contains a
    · rfl
    · exact absurd ((contains_true_iff l a).mp hc) h

/-- Membership in the user-paused set after an insertion. -/
theorem mem_insertId (up : List Int) (a b : Int) :
    a ∈ insertId up b ↔ a = b ∨ a ∈ up := by
  unfold insertId
  by_cases h : up.contains b = true
  · rw [if_pos h]
    have hb := (contains_true_iff up b).mp h
    constructor
    · exact Or.inr
    · rintro (rfl | hm)
      · exact hb
      · exact hm
  · rw [if_neg h]
    exact List.mem_cons

/-- Membership in the user-paused set after a discard. -/
theorem mem_removeId (up : List Int) (a b : Int) :
    a ∈ removeId up b ↔ a ∈ up ∧ a ≠ b := by
  unfold removeId
  simp [List.mem_filter]

/-- C5: a user-paused id is never in `_auto_resume`'s start list; every
polled torrent below 100% in stopped/paused status whose id is not
user-paused is started; and the user-paused set changes membership only
through the explicit manual actions (pause adds, resume or removal
discards). -/
theorem C5_user_paused (up : List Int) (poll : List TView) (id : Int) :
    (up.contains id = true → id ∉ autoResume up poll) ∧
    (∀ t ∈ poll, t.id = id → t.percent < 100 → statusPaused t.status = true →
        up.contains id = false → id ∈ autoResume up poll) ∧
    (∀ ev : UserEv, up.contains id = true →
        (applyUserEv up ev).contains id = false →
        ev = UserEv.remove id ∨
          ∃ s, ev = UserEv.toggle id s ∧ statusActive s = false) ∧
    (∀ ev : UserEv, up.contains id = false →
        (applyUserEv up ev).contains id = true →
        ∃ s, ev = UserEv.toggle id s ∧ statusActive s = true) := by
  refine ⟨?_, ?_, ?_, ?_⟩
  · intro hup hmem
    simp only [autoResume, List.mem_map, List.mem_filter] at hmem
    obtain ⟨t, ⟨_, hcond⟩, hid⟩ := hmem
    rw [hid] at hcond
    simp only [Bool.and_eq_true, Bool.not_eq_true'] at hcond
    rw [hcond.2] at hup
    cases hup
  · intro t hmem hid hpct hst hup
    simp only [autoResume, List.mem_map, List.mem_filter]
    refine ⟨t, ⟨hmem, ?_⟩, hid⟩
    rw [hid]
    simp only [Bool.and_eq_true, Bool.not_eq_true', decide_eq_true_eq]
    exact ⟨⟨hpct, hst⟩, hup⟩
  · intro ev hup hafter
    rw [contains_true_iff] at hup
    rw [contains_false_iff] at hafter
    rcases ev with ⟨tid, s⟩ | tid
    · by_cases hact : statusActive s = true
      · exfalso
        simp only [applyUserEv, hact, if_pos] at hafter
        exact hafter ((mem_insertId up id tid).mpr (Or.inr hup))
      · right
        refine ⟨s, ?_, by simpa using hact⟩
        have : id = tid := by
          by_contra hne
          simp only [applyUserEv, hact, if_neg, Bool.false_eq_true,
            not_false_iff] at hafter
          exact hafter ((mem_removeId up id tid).mpr ⟨hup, hne⟩)
        rw [this]
    · left
      have : id = tid := by
        by_contra hne
        simp only [applyUserEv] at hafter
        exact hafter ((mem_removeId up id tid).mpr ⟨hup, hne⟩)
      rw [this]
  · intro ev hup hafter
    rw [contains_false_iff] at hup
    rw [contains_true_iff] at hafter
    rcases ev with ⟨tid, s⟩ | tid
    · by_cases hact : statusActive s = true
      · refine ⟨s, ?_, hact⟩
        have : id = tid := by
          simp only [applyUserEv, hact, if_pos] at hafter
          rcases (mem_insertId up id tid).mp hafter with heq | hmem
          · exact heq
          · exact absurd hmem hup
        rw [this]
      · exfalso
        simp only [applyUserEv, hact, if_neg, Bool.false_eq_true,
          not_false_iff] at hafter
        exact hup ((mem_removeId up id tid).mp hafter).1
    · exfalso
      simp only [applyUserEv] at hafter
      exact hup ((mem_removeId up id tid).mp hafter).1

/-- C5 witness: with id 1 user-paused, a stopped 50%-complete torrent with id
1 is not auto-resumed. -/
theorem C5_witness : (1 : Int) ∉ autoResume [1] [⟨1, "stopped", 50⟩] :=
  (C5_user_paused [1] [⟨1, "stopped", 50⟩] 1).1 (by decide)

/-! ### C4: auto-retry budget -/

/-- Torrents with other ids neither touch id's counter nor issue a restart
for it. -/
theorem retry_fold_ne (id : Int) :
    ∀ (l : List TView), (∀ t ∈ l, t.id ≠ id) →
      ∀ (f : Int → Nat) (s : List Int),
        (l.foldl retryStep (f, s)).1 id = f id ∧
        (l.foldl retryStep (f, s)).2.count id = s.count id := by
  intro l
  induction l with
  | nil => intro _ f s; exact ⟨rfl, rfl⟩
  | cons t rest ih =>
      intro h f s
      have hne : t.id ≠ id := h t (List.mem_cons_self t rest)
      have hrest : ∀ u ∈ rest, u.id ≠ id := fun u hu => h u (List.mem_cons_of_mem t hu)
      have hstep1 : (retryStep (f, s) t).1 id = f id := by
        unfold retryStep
        by_cases herr : errCond t = true
        · simp only [herr, if_pos]
          by_cases h3 : 3 ≤ f t.id
          · rw [if_pos h3]
          · rw [if_neg h3]
            exact Function.update_noteq (Ne.symm hne) _ f
        · simp only [herr, Bool.false_eq_true, if_neg, not_false_iff]
          exact Function.update_noteq (Ne.symm hne) _ f
      have hstep2 : (retryStep (f, s) t).2.count id = s.count id := by
        unfold retryStep
        by_cases herr : errCond t = true
        · simp only [herr, if_pos]
          by_cases h3 : 3 ≤ f t.id
          · rw [if_pos h3]
          · rw [if_neg h3]
            simp only [List.count_append]
            have : List.count id [t.id] = 0 :=
              List.count_eq_zero.mpr (by simp [Ne.symm hne])
            rw [this, Nat.add_zero]
        · simp only [herr, Bool.false_eq_true, if_neg, not_false_iff]
      have hfold : (t :: rest).foldl retryStep (f, s) =
          rest.foldl retryStep (retryStep (f, s) t) := rfl
      rw [hfold]
      obtain ⟨ha, hb⟩ := ih hrest (retryStep (f, s) t).1 (retryStep (f, s) t).2
      constructor
      · rw [ha, hstep1]
      · rw [hb, hstep2]

/-- One cycle over a poll containing id exactly once, in error below 100%:
a restart is issued iff the counter is below 3, and the counter advances
accordingly. -/
theorem retry_cycle_err (id : Int) (f : Int → Nat) (p : List TView)
    (h : errOnce id p) :
    (autoRetryFailed f p).1 id = (if f id < 3 then f id + 1 else f id) ∧
    (autoRetryFailed f p).2.count id = (if f id < 3 then 1 else 0) := by
  obtain ⟨l1, t, l2, rfl, hid, herr, h1, h2⟩ := h
  unfold autoRetryFailed
  rw [List.foldl_append]
  obtain ⟨ha1, hb1⟩ := retry_fold_ne id l1 h1 f []
  have hfold : (t :: l2).foldl retryStep (l1.foldl retryStep (f, [])) =
      l2.foldl retryStep (retryStep (l1.foldl retryStep (f, [])) t) := rfl
  rw [hfold]
  set acc1 := l1.foldl retryStep (f, []) with hacc1
  have hstep : (retryStep acc1 t).1 id = (if f id < 3 then f id + 1 else f id) ∧
      (retryStep acc1 t).2.count id = (if f id < 3 then 1 else 0) := by
    unfold retryStep
    simp only [herr, if_pos]
    rw [hid, ha1]
    by_cases h3 : 3 ≤ f id
    · rw [if_pos h3, if_neg (by omega), if_neg (by omega)]
      exact ⟨ha1, hb1⟩
    · rw [if_neg h3, if_pos (by omega), if_pos (by omega)]
      constructor
      · exact Function.update_same id _ _
      · rw [List.count_append, hb1]
        simp
  obtain ⟨ha2, hb2⟩ := retry_fold_ne id l2 h2 (retryStep acc1 t).1 (retryStep acc1 t).2
  constructor
  · rw [ha2, hstep.1]
  · rw [hb2, hstep.2]

/-- Restart budget over a run: with the counter at `c ≤ 3`, a streak of
error cycles issues `min (3 - c)` restarts. -/
theorem runRetry_count (id : Int) :
    ∀ (polls : List (List TView)) (f : Int → Nat),
      (∀ p ∈ polls, errOnce id p) → f id ≤ 3 →
      (runRetry f polls).2.count id = min (3 - f id) polls.length := by
  intro polls
  induction polls with
  | nil => intro f _ _; simp [runRetry]
  | cons p ps ih =>
      intro f hall hf
      have hp := hall p (List.mem_cons_self p ps)
      have hps : ∀ q ∈ ps, errOnce id q := fun q hq =>
        hall q (List.mem_cons_of_mem p hq)
      obtain ⟨ha, hb⟩ := retry_cycle_err id f p hp
      have hfold : runRetry f (p :: ps) =
          ((runRetry (autoRetryFailed f p).1 ps).1,
            (autoRetryFailed f p).2 ++ (runRetry (autoRetryFailed f p).1 ps).2) := rfl
      rw [hfold]
      simp only [List.count_append]
      rw [hb]
      by_cases h3 : f id < 3
      · rw [if_pos h3]
        have hrest := ih (autoRetryFailed f p).1 hps (by rw [ha, if_pos h3]; omega)
        rw [hrest, ha, if_pos h3]
        simp only [List.length_cons]
        omega
      · rw [if_neg h3]
        have hrest := ih (autoRetryFailed f p).1 hps (by rw [ha, if_neg h3]; omega)
        rw [hrest, ha, if_neg h3]
        simp only [List.length_cons]
        omega

/-- C4: starting from a fresh counter, a streak of `n` cycles in which the
torrent stays in error status below 100% issues `min 3 n` restarts — at most
3, and a 4th consecutive error cycle issues none; and any cycle that observes
the torrent out of that condition (as the last observation of that id in the
poll) resets its counter to 0, restoring the budget. -/
theorem C4_auto_retry (id : Int) (polls : List (List TView)) (f0 : Int → Nat)
    (hall : ∀ p ∈ polls, errOnce id p) (h0 : f0 id = 0) :
    (runRetry f0 polls).2.count id = min 3 polls.length ∧
    (runRetry f0 polls).2.count id ≤ 3 ∧
    (∀ (f : Int → Nat) (l1 l2 : List TView) (t : TView), t.id = id →
        errCond t = false → (∀ u ∈ l2, u.id ≠ id) →
        (autoRetryFailed f (l1 ++ t :: l2)).1 id = 0) := by
  have hmain := runRetry_count id polls f0 hall (by omega)
  rw [h0] at hmain
  have hmain' : (runRetry f0 polls).2.count id = min 3 polls.length := by
    simpa using hmain
  refine ⟨hmain', ?_, ?_⟩
  · rw [hmain']
    exact min_le_left 3 polls.length
  · intro f l1 l2 t hid herr h2
    unfold autoRetryFailed
    rw [List.foldl_append]
    have hfold : (t :: l2).foldl retryStep (l1.foldl retryStep (f, [])) =
        l2.foldl retryStep (retryStep (l1.foldl retryStep (f, [])) t) := rfl
    rw [hfold]
    have hstep : (retryStep (l1.foldl retryStep (f, [])) t).1 id = 0 := by
      unfold retryStep
      simp only [herr, Bool.false_eq_true, if_neg, not_false_iff]
      rw [← hid]
      exact Function.update_same t.id 0 _
    obtain ⟨ha, _⟩ := retry_fold_ne id l2 h2 _ _
    rw [ha, hstep]

/-- C4 witness: four consecutive error cycles for id 1 issue exactly
`min 3 4 = 3` restarts. -/
theorem C4_witness :
    (runRetry (fun _ => 0) (List.replicate 4 [⟨1, "error", 50⟩])).2.count 1 =
      min 3 (List.replicate 4 [(⟨1, "error", 50⟩ : TView)]).length :=
  (C4_auto_retry 1 (List.replicate 4 [⟨1, "error", 50⟩]) (fun _ => 0)
    (fun p hp => by
      rw [List.eq_of_mem_replicate hp]
      exact ⟨[], ⟨1, "error", 50⟩, [], rfl, rfl, by decide, by simp, by simp⟩)
    rfl).1

/-! ### C2: completion notification and one-time verify -/

/-- Normal form of one completion-detection step. -/
theorem procCompletion_eq (old : List (Int × ℚ)) (vOk : Int → Bool)
    (acc : CycAcc) (u : Int × ℚ) :
    procCompletion old vOk acc u =
      if (decide (100 ≤ u.2) && !(acc.completed.contains u.1)) = true then
        ⟨u.1 :: acc.completed,
         if acc.verified.contains u.1 then acc.verified
           else if vOk u.1 then u.1 :: acc.verified else acc.verified,
         (match dictLookup old u.1 with
          | some p => if p < 100 then acc.notifs ++ [u.1] else acc.notifs
          | none => acc.notifs),
         if acc.verified.contains u.1 then acc.verifies
           else acc.verifies ++ [u.1]⟩
      else acc := by
  by_cases hc : (decide (100 ≤ u.2) && !(acc.completed.contains u.1)) = true
  · rw [if_pos hc]
    unfold procCompletion
    rw [if_pos hc]
    by_cases hv : acc.verified.contains u.1 = true
    · simp only [hv, if_pos, if_true]
    · simp only [hv, Bool.false_eq_true, if_neg, not_false_iff, if_false]
  · rw [if_neg hc]
    unfold procCompletion
    rw [if_neg hc]

/-- Facts about one step on an entry with a different id: id's notification
count, completed membership and verify count are untouched. -/
theorem step_ne_facts (old : List (Int × ℚ)) (vOk : Int → Bool) (id : Int)
    (acc : CycAcc) (u : Int × ℚ) (hne : u.1 ≠ id) :
    (procCompletion old vOk acc u).notifs.count id = acc.notifs.count id ∧
    (id ∈ (procCompletion old vOk acc u).completed ↔ id ∈ acc.completed) ∧
    (procCompletion old vOk acc u).verifies.count id = acc.verifies.count id := by
  have hcnt : List.count id [u.1] = 0 :=
    List.count_eq_zero.mpr (by simp [Ne.symm hne])
  rw [procCompletion_eq]
  by_cases hcond : (decide (100 ≤ u.2) && !(acc.completed.contains u.1)) = true
  · rw [if_pos hcond]
    refine ⟨?_, ?_, ?_⟩
    · dsimp only
      rcases hl : dictLookup old u.1 with _ | p
      · rfl
      · show List.count id (if p < 100 then acc.notifs ++ [u.1] else acc.notifs) = _
        by_cases hp : p < 100
        · rw [if_pos hp, List.count_append, hcnt, Nat.add_zero]
        · rw [if_neg hp]
    · dsimp only
      simp only [List.mem_cons]
      constructor
      · rintro (heq | hm)
        · exact absurd heq.symm hne
        · exact hm
      · exact Or.inr
    · dsimp only
      by_cases hv : acc.verified.contains u.1 = true
      · rw [if_pos hv]
      · rw [if_neg hv, List.count_append, hcnt, Nat.add_zero]
  · rw [if_neg hcond]
    exact ⟨rfl, Iff.rfl, rfl⟩

/-- Facts about one step on an entry carrying id itself. -/
theorem step_self_facts (old : List (Int × ℚ)) (vOk : Int → Bool) (id : Int)
    (acc : CycAcc) (u : Int × ℚ) (hu : u.1 = id) :
    (id ∈ acc.completed → procCompletion old vOk acc u = acc) ∧
    (id ∉ acc.completed → ¬ (100 : ℚ) ≤ u.2 → procCompletion old vOk acc u = acc) ∧
    (id ∉ acc.completed → (100 : ℚ) ≤ u.2 →
      id ∈ (procCompletion old vOk acc u).completed ∧
      (procCompletion old vOk acc u).verifies.count id =
        acc.verifies.count id +
          (if acc.verified.contains id = true then 0 else 1) ∧
      (procCompletion old vOk acc u).notifs.count id =
        acc.notifs.count id +
          (if (∃ p, dictLookup old id = some p ∧ p < 100) then 1 else 0)) := by
  refine ⟨?_, ?_, ?_⟩
  · intro hid
    have hcontains : acc.completed.contains u.1 = true := by
      rw [hu]; exact (contains_true_iff _ _).mpr hid
    rw [procCompletion_eq, hcontains]
    simp
  · intro _ h100
    rw [procCompletion_eq]
    have : (decide ((100 : ℚ) ≤ u.2) && !(acc.completed.contains u.1)) = false := by
      simp [h100]
    rw [this]
    simp
  · intro hid h100
    have hcontains : acc.completed.contains u.1 = false := by
      rw [hu]; exact (contains_false_iff _ _).mpr hid
    have hcond : (decide ((100 : ℚ) ≤ u.2) && !(acc.completed.contains u.1)) = true := by
      rw [hcontains]; simp [h100]
    rw [procCompletion_eq, if_pos hcond]
    refine ⟨?_, ?_, ?_⟩
    · dsimp only
      rw [hu]
      exact List.mem_cons_self id _
    · dsimp only
      rw [hu]
      by_cases hv : acc.verified.contains id = true
      · rw [if_pos hv, if_pos hv, Nat.add_zero]
      · rw [if_neg hv, if_neg hv, List.count_append]
        simp
    · dsimp only
      rw [hu]
      rcases hl : dictLookup old id with _ | p
      · rw [if_neg ?_, Nat.add_zero]
        rintro ⟨q, hq, _⟩
        cases hq
      · show List.count id (if p < 100 then acc.notifs ++ [id] else acc.notifs) = _
        by_cases hp : p < 100
        · rw [if_pos hp, if_pos ⟨p, rfl, hp⟩, List.count_append]
          simp
        · rw [if_neg hp, if_neg ?_, Nat.add_zero]
          rintro ⟨q, hq, hq100⟩
          cases hq
          exact hp hq100

/-- Entries with other ids do not affect id's notification count, completed
membership or verify count, across a whole fold. -/
theorem comp_fold_ne (old : List (Int × ℚ)) (vOk : Int → Bool) (id : Int) :
    ∀ (l : List (Int × ℚ)), (∀ u ∈ l, u.1 ≠ id) → ∀ acc : CycAcc,
      ((l.foldl (procCompletion old vOk) acc).notifs.count id =
          acc.notifs.count id) ∧
      (id ∈ (l.foldl (procCompletion old vOk) acc).completed ↔
          id ∈ acc.completed) ∧
      ((l.foldl (procCompletion old vOk) acc).verifies.count id =
          acc.verifies.count id) := by
  intro l
  induction l with
  | nil => intro _ acc; exact ⟨rfl, Iff.rfl, rfl⟩
  | cons u rest ih =>
      intro h acc
      have hne : u.1 ≠ id := h u (List.mem_cons_self u rest)
      have hrest : ∀ w ∈ rest, w.1 ≠ id := fun w hw => h w (List.mem_cons_of_mem u hw)
      obtain ⟨s1, s2, s3⟩ := step_ne_facts old vOk id acc u hne
      obtain ⟨f1, f2, f3⟩ := ih hrest (procCompletion old vOk acc u)
      have hfold : (u :: rest).foldl (procCompletion old vOk) acc =
          rest.foldl (procCompletion old vOk) (procCompletion old vOk acc u) := rfl
      rw [hfold]
      exact ⟨by rw [f1, s1], by rw [f2, s2], by rw [f3, s3]⟩

/-- Once id is marked completed, no later step issues a verify for it and the
mark persists; before the mark, a fold adds at most one verify and, if it
does, also sets the mark. -/
theorem comp_fold_verify (old : List (Int × ℚ)) (vOk : Int → Bool) (id : Int) :
    ∀ (l : List (Int × ℚ)) (acc : CycAcc),
      (id ∈ acc.completed →
        (l.foldl (procCompletion old vOk) acc).verifies.count id =
            acc.verifies.count id ∧
          id ∈ (l.foldl (procCompletion old vOk) acc).completed) ∧
      (id ∉ acc.completed →
        (l.foldl (procCompletion old vOk) acc).verifies.count id =
            acc.verifies.count id ∨
          ((l.foldl (procCompletion old vOk) acc).verifies.count id =
              acc.verifies.count id + 1 ∧
            id ∈ (l.foldl (procCompletion old vOk) acc).completed)) := by
  intro l
  induction l with
  | nil =>
      intro acc
      exact ⟨fun h => ⟨rfl, h⟩, fun _ => Or.inl rfl⟩
  | cons u rest ih =>
      intro acc
      have hfold : (u :: rest).foldl (procCompletion old vOk) acc =
          rest.foldl (procCompletion old vOk) (procCompletion old vOk acc u) := rfl
      rw [hfold]
      constructor
      · intro hid
        by_cases hu : u.1 = id
        · rw [(step_self_facts old vOk id acc u hu).1 hid]
          exact (ih acc).1 hid
        · obtain ⟨_, s2, s3⟩ := step_ne_facts old vOk id acc u hu
          obtain ⟨f1, f2⟩ := (ih (procCompletion old vOk acc u)).1 (s2.mpr hid)
          exact ⟨by rw [f1, s3], f2⟩
      · intro hid
        by_cases hu : u.1 = id
        · by_cases h100 : (100 : ℚ) ≤ u.2
          · obtain ⟨m1, m2, _⟩ := (step_self_facts old vOk id acc u hu).2.2 hid h100
            obtain ⟨f1, f2⟩ := (ih (procCompletion old vOk acc u)).1 m1
            by_cases hv : acc.verified.contains id = true
            · left
              rw [f1, m2, if_pos hv, Nat.add_zero]
            · right
              exact ⟨by rw [f1, m2, if_neg hv], f2⟩
          · rw [(step_self_facts old vOk id acc u hu).2.1 hid h100]
            exact (ih acc).2 hid
        · obtain ⟨_, s2, s3⟩ := step_ne_facts old vOk id acc u hu
          have hid' : id ∉ (procCompletion old vOk acc u).completed :=
            fun hm => hid (s2.mp hm)
          rcases (ih (procCompletion old vOk acc u)).2 hid' with h1 | ⟨h1, h2⟩
          · left; rw [h1, s3]
          · right; exact ⟨by rw [h1, s3], h2⟩

/-- `prevBelow` names the notify condition of the source. -/
theorem prevBelow_iff (old : List (Int × ℚ)) (id : Int) :
    prevBelow old id = true ↔ ∃ p, dictLookup old id = some p ∧ p < 100 := by
  unfold prevBelow
  rcases hl : dictLookup old id with _ | p
  · simp
  · simp

/-- Per-cycle verify facts: none once marked, at most one before, marking on
issue. -/
theorem cycle_verify (vOk : Int → Bool) (id : Int) (s : CompState)
    (poll : List (Int × ℚ)) :
    (id ∈ s.completed →
      (refreshCycle vOk s poll).2.2.count id = 0 ∧
      id ∈ (refreshCycle vOk s poll).1.completed) ∧
    (refreshCycle vOk s poll).2.2.count id ≤ 1 ∧
    ((refreshCycle vOk s poll).2.2.count id = 1 →
      id ∈ (refreshCycle vOk s poll).1.completed) := by
  have hfold := comp_fold_verify s.prev vOk id poll ⟨s.completed, s.verified, [], []⟩
  have hv : (refreshCycle vOk s poll).2.2 =
      (poll.foldl (procCompletion s.prev vOk) ⟨s.completed, s.verified, [], []⟩).verifies := rfl
  have hcmp : (refreshCycle vOk s poll).1.completed =
      (poll.foldl (procCompletion s.prev vOk) ⟨s.completed, s.verified, [], []⟩).completed := rfl
  rw [hv, hcmp]
  by_cases hid : id ∈ s.completed
  · obtain ⟨h1, h2⟩ := hfold.1 hid
    refine ⟨fun _ => ⟨by simpa using h1, h2⟩, by simp [h1], fun _ => h2⟩
  · rcases hfold.2 hid with h1 | ⟨h1, h2⟩
    · refine ⟨fun h => absurd h hid, by simp [h1], fun hc => ?_⟩
      rw [h1] at hc
      simp at hc
    · refine ⟨fun h => absurd h hid, by simp [h1], fun _ => h2⟩

/-- Across any run, at most one verify is ever issued per id, and none once
the id is already marked completed. -/
theorem run_verify (vOk : Int → Bool) (id : Int) :
    ∀ (polls : List (List (Int × ℚ))) (s : CompState),
      (id ∈ s.completed → (runRefresh vOk s polls).2.2.count id = 0) ∧
      (runRefresh vOk s polls).2.2.count id ≤ 1 := by
  intro polls
  induction polls with
  | nil => intro s; exact ⟨fun _ => rfl, by simp [runRefresh]⟩
  | cons p ps ih =>
      intro s
      have hfold : (runRefresh vOk s (p :: ps)).2.2 =
          (refreshCycle vOk s p).2.2 ++
            (runRefresh vOk (refreshCycle vOk s p).1 ps).2.2 := rfl
      rw [hfold, List.count_append]
      obtain ⟨cyc1, cyc2, cyc3⟩ := cycle_verify vOk id s p
      obtain ⟨ihA, ihB⟩ := ih (refreshCycle vOk s p).1
      constructor
      · intro hid
        obtain ⟨h1, h2⟩ := cyc1 hid
        rw [h1, ihA h2]
      · by_cases hone : (refreshCycle vOk s p).2.2.count id = 1
        · rw [hone, ihA (cyc3 hone)]
        · omega

/-- C2 counterexample: a torrent first observed already at 100% (absent from
the previous snapshot, never marked complete) is marked complete by the cycle
yet zero "Completed" notifications are emitted, not exactly one. -/
theorem C2_counterexample :
    (refreshCycle (fun _ => true) initComp [(1, 100)]).2.1 = [] ∧
      initComp.completed.contains 1 = false ∧
      (refreshCycle (fun _ => true) initComp [(1, 100)]).1.completed.contains 1 = true := by
  refine ⟨by decide, by decide, by decide⟩

/-- C2 (amended): in a cycle polling id once, a "Completed" notification is
emitted exactly when the id is at 100%, not yet marked complete, AND its
previous snapshot existed below 100% (a torrent first observed at 100% is
marked complete silently); and across any run from start-up, at most one
automatic verify is ever issued per torrent id. -/
theorem C2_completion (vOk : Int → Bool) (id : Int) :
    (∀ (s : CompState) (l1 l2 : List (Int × ℚ)) (t : Int × ℚ),
        t.1 = id → (∀ u ∈ l1, u.1 ≠ id) → (∀ u ∈ l2, u.1 ≠ id) →
        (refreshCycle vOk s (l1 ++ t :: l2)).2.1.count id =
          (if (!(s.completed.contains id) && decide ((100 : ℚ) ≤ t.2) &&
              prevBelow s.prev id) = true then 1 else 0)) ∧
    (∀ polls : List (List (Int × ℚ)),
        (runRefresh vOk initComp polls).2.2.count id ≤ 1) := by
  constructor
  · intro s l1 l2 t ht h1 h2
    have hn : (refreshCycle vOk s (l1 ++ t :: l2)).2.1 =
        ((l1 ++ t :: l2).foldl (procCompletion s.prev vOk)
          ⟨s.completed, s.verified, [], []⟩).notifs := rfl
    rw [hn, List.foldl_append]
    set acc0 : CycAcc := ⟨s.completed, s.verified, [], []⟩ with hacc0
    obtain ⟨a1, a2, _⟩ := comp_fold_ne s.prev vOk id l1 h1 acc0
    set acc1 := l1.foldl (procCompletion s.prev vOk) acc0 with hacc1
    have hfold : (t :: l2).foldl (procCompletion s.prev vOk) acc1 =
        l2.foldl (procCompletion s.prev vOk) (procCompletion s.prev vOk acc1 t) := rfl
    rw [hfold]
    obtain ⟨b1, _, _⟩ := comp_fold_ne s.prev vOk id l2 h2
      (procCompletion s.prev vOk acc1 t)
    rw [b1]
    by_cases hid : id ∈ s.completed
    · have hmem : id ∈ acc1.completed := a2.mpr hid
      rw [(step_self_facts s.prev vOk id acc1 t ht).1 hmem, a1]
      have hc : s.completed.contains id = true := (contains_true_iff _ _).mpr hid
      rw [hc]
      simp
    · have hmem : id ∉ acc1.completed := fun hm => hid (a2.mp hm)
      by_cases h100 : (100 : ℚ) ≤ t.2
      · obtain ⟨_, _, m3⟩ := (step_self_facts s.prev vOk id acc1 t ht).2.2 hmem h100
        rw [m3, a1]
        have hc : s.completed.contains id = false := (contains_false_iff _ _).mpr hid
        rw [hc]
        by_cases hpb : prevBelow s.prev id = true
        · rw [if_pos ((prevBelow_iff s.prev id).mp hpb)]
          simp [hpb, h100]
        · rw [if_neg (fun hex => hpb ((prevBelow_iff s.prev id).mpr hex))]
          have : prevBelow s.prev id = false := by
            cases hq : prevBelow s.prev id
            · rfl
            · exact absurd hq hpb
          simp [this]
      · rw [(step_self_facts s.prev vOk id acc1 t ht).2.1 hmem h100, a1]
        have : decide ((100 : ℚ) ≤ t.2) = false := by simp [h100]
        simp [this]
  · intro polls
    exact (run_verify vOk id polls initComp).2

/-- C2 witness: a torrent previously polled at 50% and now at 100% gets
exactly one "Completed" notification. -/
theorem C2_witness :
    (refreshCycle (fun _ => true) ⟨[], [], [(1, 50)]⟩ [(1, 100)]).2.1.count 1 = 1 := by
  have h := (C2_completion (fun _ => true) 1).1 ⟨[], [], [(1, 50)]⟩ [] [] (1, 100)
    rfl (by intro u hu; cases hu) (by intro u hu; cases hu)
  simp only [List.nil_append] at h
  rw [h]
  decide

/-! ### C9: config round-trip -/

/-- Dropping a prefix twice is the same as once. -/
theorem dropWhile_idem (p : Char → Bool) (l : List Char) :
    (l.dropWhile p).dropWhile p = l.dropWhile p := by
  induction l with
  | nil => rfl
  | cons a t ih =>
      by_cases h : p a = true
      · simp [List.dropWhile_cons, h, ih]
      · simp [List.dropWhile_cons, h]

/-- The head surviving a `dropWhile` fails the predicate. -/
theorem dropWhile_head_false (p : Char → Bool) (l : List Char) :
    ∀ x ∈ (l.dropWhile p).head?, p x = false := by
  induction l with
  | nil => intro x hx; cases hx
  | cons a t ih =>
      intro x hx
      by_cases h : p a = true
      · rw [List.dropWhile_cons_of_pos h] at hx
        exact ih x hx
      · rw [List.dropWhile_cons_of_neg h] at hx
        cases hx
        simpa using h

/-- A list whose head fails the predicate survives `dropWhile` whole. -/
theorem dropWhile_eq_self_of_head (p : Char → Bool) (l : List Char)
    (h : ∀ x ∈ l.head?, p x = false) : l.dropWhile p = l := by
  cases l with
  | nil => rfl
  | cons a t =>
      have := h a rfl
      rw [List.dropWhile_cons_of_neg (by rw [this]; exact Bool.false_ne_true)]

/-- `dropWhile` keeps the last element (when the result is non-empty). -/
theorem dropWhile_getLast? (p : Char → Bool) (l : List Char)
    (h : l.dropWhile p ≠ []) : (l.dropWhile p).getLast? = l.getLast? := by
  induction l with
  | nil => rfl
  | cons a t ih =>
      by_cases hp : p a = true
      · rw [List.dropWhile_cons_of_pos hp] at h ⊢
        rw [ih h]
        have ht : t ≠ [] := by
          intro he
          rw [he] at h
          exact h rfl
        cases t with
        | nil => exact absurd rfl ht
        | cons b t' => rw [List.getLast?_cons_cons]
      · rw [List.dropWhile_cons_of_neg hp]

/-- Python `.strip()` on character lists is idempotent. -/
theorem stripChars_idem (l : List Char) : stripChars (stripChars l) = stripChars l := by
  unfold stripChars
  set w := Char.isWhitespace with hw
  set A := l.dropWhile w with hA
  set B := A.reverse.dropWhile w with hB
  have hBrev : B.reverse.dropWhile w = B.reverse := by
    apply dropWhile_eq_self_of_head
    intro x hx
    rw [List.head?_reverse] at hx
    by_cases hBe : B = []
    · rw [hBe] at hx; cases hx
    · have hne : A.reverse.dropWhile w ≠ [] := by rw [← hB]; exact hBe
      have h1 : B.getLast? = A.reverse.getLast? := by
        rw [hB]; exact dropWhile_getLast? w A.reverse hne
      rw [h1, List.getLast?_reverse] at hx
      rw [hA] at hx
      exact dropWhile_head_false w l x hx
  rw [hBrev, List.reverse_reverse]
  have hBdw : B.dropWhile w = B := by
    rw [hB]; exact dropWhile_idem w A.reverse
  rw [hBdw]

/-- Python `.strip()` is idempotent. -/
theorem pyStrip_idem (s : String) : pyStrip (pyStrip s) = pyStrip s := by
  unfold pyStrip
  exact congrArg String.mk (stripChars_idem s.data)

/-- Re-normalizing a `strip`-or-default field is the identity. -/
theorem pyOrStr_strip_stable (s d : String) (hd : pyStrip d = d) (hd' : d ≠ "") :
    pyOrStr (pyStrip (pyOrStr (pyStrip s) d)) d = pyOrStr (pyStrip s) d := by
  unfold pyOrStr
  by_cases h : pyStrip s = ""
  · simp [h, hd, hd']
  · simp [h, pyStrip_idem]

/-- `s or ""` is the identity on strings. -/
theorem pyOrStr_empty (s : String) : pyOrStr s "" = s := by
  unfold pyOrStr
  by_cases h : s = ""
  · simp [h]
  · simp [h]

/-- `s or d` is stable under repetition. -/
theorem pyOrStr_idem (s d : String) (hd : d ≠ "") :
    pyOrStr (pyOrStr s d) d = pyOrStr s d := by
  unfold pyOrStr
  by_cases h : s = ""
  · simp [h, hd]
  · simp [h]

/-- `l or []` is the identity on lists. -/
theorem pyOrList_eq (l : List String) : pyOrList l = l := by
  unfold pyOrList
  by_cases h : l = []
  · simp [h]
  · simp [h]

/-- `u or None` is idempotent. -/
theorem orNone_idem (u : Option String) : orNone (orNone u) = orNone u := by
  rcases u with _ | s
  · rfl
  · unfold orNone
    by_cases h : s = ""
    · simp [h]
    · simp [h]

/-- Writing a credential as `""` and reading it back through `or None`
recovers the normalized credential. -/
theorem orNone_roundtrip (u : Option String) :
    orNone (some ((orNone u).getD "")) = orNone u := by
  rcases u with _ | s
  · rfl
  · unfold orNone
    by_cases h : s = ""
    · simp [h]
    · simp [h]

/-- The port clamp is idempotent. -/
theorem safeIntClamp_idem (lo hi v : Int) (h : lo ≤ hi) :
    safeIntClamp lo hi (safeIntClamp lo hi v) = safeIntClamp lo hi v := by
  unfold safeIntClamp
  rcases le_total v lo with h1 | h1 <;> rcases le_total v hi with h2 | h2 <;>
    simp [max_def, min_def] <;> split_ifs <;> omega

/-- The `[0.5, 30]` clamp of the refresh interval is idempotent. -/
theorem clampQ_idem (v : ℚ) :
    max (1 / 2) (min 30 (max (1 / 2) (min 30 v))) = max (1 / 2) (min 30 v) := by
  have h1 : (1 / 2 : ℚ) ≤ max (1 / 2) (min 30 v) := le_max_left _ _
  have h2 : max (1 / 2 : ℚ) (min 30 v) ≤ 30 :=
    max_le (by norm_num) (min_le_left _ _)
  rw [min_eq_right h2, max_eq_right h1]

/-- The timeout floor is idempotent. -/
theorem timeoutClamp_idem (t : ℚ) : max 1 (max 1 t) = max 1 t := by
  rw [← max_assoc, max_self]

/-- Normalizing the extra-argument list twice is the same as once. -/
theorem normArgs_idem (l : List String) : normArgs (normArgs l) = normArgs l := by
  unfold normArgs
  induction l with
  | nil => rfl
  | cons a t ih =>
      by_cases h : pyStrip a = ""
      · simpa [h] using ih
      · simpa [h, pyStrip_idem] using ih

/-- A normalized sort column passes the allow-list again. -/
theorem sortCol_stable (sc : Option Int) :
    (if allowedSort (if allowedSort sc then sc else none) then
        (if allowedSort sc then sc else none) else none) =
      (if allowedSort sc then sc else none) := by
  by_cases h : allowedSort sc = true
  · rw [if_pos h, if_pos h]
  · rw [if_neg h]
    rfl

/-- Unfolds `expandUser` on a non-empty path. -/
theorem expandUser_of_data (home p : String) (c : Char) (rest : List Char)
    (hp : p.data = c :: rest) :
    expandUser home p =
      if c = '~' ∧ (rest = [] ∨ rest.head? = some '/') then ⟨home.data ++ rest⟩
      else p := by
  unfold expandUser
  rw [hp]

/-- Unfolds `expandUser` on the empty path. -/
theorem expandUser_of_nil (home p : String) (hp : p.data = []) :
    expandUser home p = p := by
  unfold expandUser
  rw [hp]

/-- A path that already starts with the (sane) home directory is a fixed
point of `expanduser`. -/
theorem expandUser_fix (home q : String) (h1 : home.data ≠ [])
    (h2 : home.data.head? ≠ some '~')
    (hq : ∃ rest, q.data = home.data ++ rest) : expandUser home q = q := by
  obtain ⟨rest, hq⟩ := hq
  rcases hh : home.data with _ | ⟨h0, hs⟩
  · exact absurd hh h1
  · rw [hh] at hq
    have hq' : q.data = h0 :: (hs ++ rest) := by rw [hq]; rfl
    have hne : ¬ (h0 = '~' ∧ ((hs ++ rest) = [] ∨ (hs ++ rest).head? = some '/')) := by
      rintro ⟨hh0, _⟩
      apply h2
      rw [hh, hh0]
      rfl
    rw [expandUser_of_data home q h0 (hs ++ rest) hq', if_neg hne]

/-- With a sane home directory, `expanduser` is idempotent. -/
theorem expandUser_idem (home p : String) (h1 : home.data ≠ [])
    (h2 : home.data.head? ≠ some '~') :
    expandUser home (expandUser home p) = expandUser home p := by
  rcases hp : p.data with _ | ⟨c, rest⟩
  · rw [expandUser_of_nil home p hp, expandUser_of_nil home p hp]
  · have heq := expandUser_of_data home p c rest hp
    by_cases hc : c = '~' ∧ (rest = [] ∨ rest.head? = some '/')
    · have he : expandUser home p = ⟨home.data ++ rest⟩ := by rw [heq, if_pos hc]
      rw [he]
      exact expandUser_fix home ⟨home.data ++ rest⟩ h1 h2 ⟨rest, rfl⟩
    · have he : expandUser home p = p := by rw [heq, if_neg hc]
      rw [he, he]

/-- C9: saving a config and loading it back yields, field for field, the
normalized form of the saved config (host/binary stripped with defaults,
port clamped to `[1, 65535]`, timeout floored at 1.0, refresh interval
clamped to `[0.5, 30]`, credentials collapsed through `or None`, paths
expanded). Stated for any home directory that is non-empty and does not
itself start with `~`. -/
theorem C9_config_roundtrip (home : String) (c : AppConfig)
    (h1 : home.data ≠ []) (h2 : home.data.head? ≠ some '~') :
    loadAfterSave home c = normalizeApp home c := by
  have hany : ("any" : String) ≠ "" := by decide
  unfold loadAfterSave mergeConfig toPayload normalizeApp normRpc normDaemon
    normPaths normUI
  dsimp only
  simp only [AppConfig.mk.injEq, RpcConfig.mk.injEq, DaemonConfig.mk.injEq,
    PathConfig.mk.injEq, UIConfig.mk.injEq]
  refine ⟨⟨?_, ?_, ?_, ?_, ?_⟩, ⟨?_, ?_, ?_, ?_, ?_, ?_⟩, ⟨?_, ?_⟩,
    ⟨?_, ?_, ?_, ?_, ?_, ?_⟩⟩
  · exact pyOrStr_strip_stable c.rpc.host "localhost" (by decide) (by decide)
  · have hpp := safeIntClamp_idem 1 65535 c.rpc.port (by norm_num)
    rw [hpp, hpp]
  · rw [orNone_roundtrip, orNone_idem]
  · rw [orNone_roundtrip, orNone_idem]
  · exact timeoutClamp_idem c.rpc.timeout
  · trivial
  · exact pyOrStr_strip_stable c.daemon.binary "transmission-daemon"
      (by decide) (by decide)
  · rw [pyOrList_eq, normArgs_idem]
  · trivial
  · trivial
  · rw [expandUser_idem home _ h1 h2, expandUser_idem home _ h1 h2]
  · rw [expandUser_idem home _ h1 h2, expandUser_idem home _ h1 h2]
  · rw [expandUser_idem home _ h1 h2, expandUser_idem home _ h1 h2]
  · exact clampQ_idem c.ui.refresh_interval
  · exact sortCol_stable c.ui.sort_column
  · trivial
  · simp only [pyOrStr_empty]
  · rw [pyOrStr_idem _ _ hany, pyOrStr_idem _ _ hany]
  · rw [pyOrStr_idem _ _ hany, pyOrStr_idem _ _ hany]

/-- C9 witness: a concrete config with an unstripped host, out-of-range port,
empty username, sub-minimum timeout and interval, messy extra args and
tilde paths round-trips to its normalized form under home `/root`. -/
theorem C9_witness :
    loadAfterSave "/root"
        ⟨⟨" localhost ", 99999, some "", none, 1 / 2⟩,
         ⟨true, "", ["  ", "x "], true, false, "~/log.txt"⟩,
         ⟨"~/Downloads", "/cfg"⟩,
         ⟨100, some 9, false, "", "", "abc"⟩⟩ =
      normalizeApp "/root"
        ⟨⟨" localhost ", 99999, some "", none, 1 / 2⟩,
         ⟨true, "", ["  ", "x "], true, false, "~/log.txt"⟩,
         ⟨"~/Downloads", "/cfg"⟩,
         ⟨100, some 9, false, "", "", "abc"⟩⟩ :=
  C9_config_roundtrip "/root" _ (by decide) (by decide)

end Torsh
